import Mathlib

/-!
Verification of the pdf-rs PDF parser core against its specification.

The definitions below are a shallow embedding of the Rust sources:
`src/utils.rs`, `src/document.rs`, `src/catalog.rs`, `src/filter.rs`,
`src/objects.rs` and `src/date.rs`.  Machine integers are represented by
`Nat`/`Int` with explicit wrap-around (`% 2^w`) where the Rust code can
overflow; byte buffers are `List Nat`; fallible Rust code returns
`Except`/`Option`, and a Rust panic is modelled as `Option.none` or a
dedicated error constructor.  Code of the repository that is not present
under `src/` (the object parser used through `parse_with_offset` /
`parse_text_xref`) is abstracted as an input to the functions that call it.
-/

namespace PdfRs

/-- Cross-reference table entry, from `src/objects.rs` (`struct XEntry`).
`value` is a `u64` file offset, `using` the in-use flag, `obj_num : u32`,
`gen_num : u16`. -/
structure XEntry where
  value : Nat
  in_use : Bool
  obj_num : Nat
  gen_num : Nat
deriving DecidableEq, Repr

/-- `XEntry::is_freed`, from `src/objects.rs`. -/
def XEntry.is_freed (e : XEntry) : Bool := !e.in_use

/-- `XEntry::is_using`, from `src/objects.rs`. -/
def XEntry.is_using (e : XEntry) : Bool := e.in_use

/-- Error taxonomy (the subset of `src/error.rs` the embedded functions use). -/
inductive PDFErr where
  | invalidPDFDocument
  | xrefTableNotFound
  | xrefEntryNotFound (o g : Nat)
  | objectAttrMiss (msg : String)
  | pdfParseError (msg : String)
  | illegalDateFormat
  | notSupportFilter (name : String)
  | flateErr
  | panicked
deriving DecidableEq, Repr

/-- `xrefs_search`, from `src/utils.rs` lines 224-228: linear search for the
first entry whose `obj_num` and `gen_num` both match the requested reference.
The `using` flag is not consulted. -/
def xrefs_search (xrefs : List XEntry) (obj_ref : Nat × Nat) : Except PDFErr XEntry :=
  match xrefs.find? (fun x => x.obj_num == obj_ref.1 && x.gen_num == obj_ref.2) with
  | some e => .ok e
  | none => .error (.xrefEntryNotFound obj_ref.1 obj_ref.2)

/-- One xref section of the `/Prev` chain, as `merge_xref_table` sees it after
`parse_text_xref` parsed the section and `parse` parsed the trailer dictionary:
the section's entries, and the trailer's `/Root` and `/Info` references (the
object parser itself is not under `src/`, so its output is taken as input
here).  A chain is a list of sections, newest (the one at `startxref`) first;
every section but the last carries a `/Prev` key. -/
structure XrefSection where
  entries : List XEntry
  root : Option (Nat × Nat)
  info : Option (Nat × Nat)
deriving DecidableEq, Repr

/-- One trailer-processing step of `merge_xref_table`
(`src/document.rs` lines 233-240): if the trailer holds `/Root`, overwrite the
catalog reference, and only then look for `/Info` (overwriting it too). -/
def merge_trailer_step (catalog info : Option (Nat × Nat)) (s : XrefSection) :
    Option (Nat × Nat) × Option (Nat × Nat) :=
  match s.root with
  | some r =>
    match s.info with
    | some i => (some r, some i)
    | none => (some r, info)
  | none => (catalog, info)

/-- One entry-merging step of `merge_xref_table`
(`src/document.rs` lines 224-232): the first section is copied wholesale
(`extend_from_slice`); entries of a later section are pushed only when no
entry with the same `obj_num` is already in the accumulated table. -/
def merge_entries_step (xrefs : List XEntry) (entries : List XEntry) : List XEntry :=
  if xrefs.isEmpty then
    xrefs ++ entries
  else
    entries.foldl
      (fun acc entry =>
        match acc.find? (fun it => it.obj_num == entry.obj_num) with
        | none => acc ++ [entry]
        | some _ => acc)
      xrefs

/-- The loop of `merge_xref_table` (`src/document.rs` lines 214-250), walking
the `/Prev` chain of sections.  State: accumulated entries, catalog reference,
info reference. -/
def merge_xref_loop (acc : List XEntry) (catalog info : Option (Nat × Nat)) :
    List XrefSection → List XEntry × Option (Nat × Nat) × Option (Nat × Nat)
  | [] => (acc, catalog, info)
  | s :: rest =>
    let acc' := merge_entries_step acc s.entries
    let (catalog', info') := merge_trailer_step catalog info s
    merge_xref_loop acc' catalog' info' rest

/-- `merge_xref_table` on an abstract `/Prev` chain of sections
(newest first). -/
def merge_xref_table (chain : List XrefSection) :
    List XEntry × Option (Nat × Nat) × Option (Nat × Nat) :=
  merge_xref_loop [] none none chain

/-- The object numbers named by a list of entries. -/
def entryObjNums (l : List XEntry) : List Nat := l.map (·.obj_num)

/-- `read_object` of `PDFDocument` (`src/document.rs` lines 144-155), with the
object parser (`parse`, not under `src/`) abstracted as `fetch` from a file
offset to the object parsed there (`none` = parse failure): an out-of-range
index or a freed entry yields `Ok(None)`; otherwise the entry's `value` is
used as the seek offset. -/
def read_object {α : Type} (fetch : Nat → Option α) (xrefs : List XEntry)
    (index : Nat) : Except PDFErr (Option α) :=
  if h : index < xrefs.length then
    let entry := xrefs.get ⟨index, h⟩
    if entry.is_freed then
      .ok none
    else
      match fetch entry.value with
      | some o => .ok (some o)
      | none => .error (.pdfParseError "parse failed")
  else
    .ok none

/-- `line_ending`, from `src/utils.rs`: CR or LF. -/
def line_ending (b : Nat) : Bool := b == 13 || b == 10

/-- `count_leading_line_endings`, from `src/utils.rs`. -/
def count_leading_line_endings : List Nat → Nat
  | [] => 0
  | b :: rest => if line_ending b then count_leading_line_endings rest + 1 else 0

/-- `literal_to_u64`, from `src/utils.rs` lines 95-103: folds `value * 10 +
(b - 48)` over the bytes.  The `u8` subtraction wraps (`% 256`) and the `u64`
accumulator wraps (`% 2^64`); no digit validation is performed. -/
def literal_to_u64 (bytes : List Nat) : Nat :=
  bytes.foldl (fun value b => (value * 10 + (b + 256 - 48) % 256) % 2 ^ 64) 0

/-- The byte values of the keyword `startxref` (`START_XREF` in
`src/constants.rs`). -/
def startxrefBytes : List Nat := [115, 116, 97, 114, 116, 120, 114, 101, 102]

/-- The backward scan of `cal_xref_table_offset` (`src/document.rs` lines
272-283): walk the buffer from its end towards its start, and each time the
current byte equals the pattern character currently waited for (`chars[tx-1]`)
advance the pattern; when the pattern is exhausted return the index at which
its first character matched.  `rbuf` is the buffer reversed, `pat` the pattern
reversed, `idx` the original index of `rbuf`'s head. -/
def back_scan : List Nat → List Nat → Nat → Option Nat
  | [], _, _ => none
  | _ :: _, [], _ => none
  | b :: rest, p :: ps, idx =>
    if b == p then
      match ps with
      | [] => some idx
      | _ :: _ => back_scan rest ps (idx - 1)
    else
      back_scan rest (p :: ps) (idx - 1)

/-- The forward scan for the first line-ending byte at position `≥ start`
(`src/document.rs` lines 291-297): returns `end`, which stays `0` when no
line ending occurs in `buf[start..n]`. -/
def find_line_end (buf : List Nat) (start : Nat) : Nat :=
  match (buf.drop start).findIdx? (fun b => line_ending b) with
  | some j => start + j
  | none => 0

/-- `cal_xref_table_offset` (`src/document.rs` lines 265-303) at the level of
the already-read window `buf` of the file's last `min(size, 1024)` bytes:
backward-scan for the characters of `startxref`, skip the keyword length and
any CR/LF, take the bytes up to the next line ending and fold them through
`literal_to_u64`. -/
def cal_xref_table_offset (buf : List Nat) : Except PDFErr Nat :=
  let n := buf.length
  match back_scan buf.reverse startxrefBytes.reverse (n - 1) with
  | none => .error .invalidPDFDocument
  | some index =>
    let index := index + startxrefBytes.length
    let crlf_num := count_leading_line_endings ((buf.drop index).take (n - index))
    let start := index + crlf_num
    let stop := find_line_end buf start
    if stop == 0 || start == stop then
      .error .invalidPDFDocument
    else
      .ok (literal_to_u64 ((buf.drop start).take (stop - start)))

/-- The `hex_map!` table of `src/utils.rs` (generated by `hex_convert!`):
maps an ASCII hex digit to its value; any other byte hits the
`panic!("Invalid hex byte")` arm, modelled as `none`. -/
def hex_map (b : Nat) : Option Nat :=
  if 48 ≤ b && b ≤ 57 then some (b - 48)
  else if 97 ≤ b && b ≤ 102 then some (b - 97 + 10)
  else if 65 ≤ b && b ≤ 70 then some (b - 65 + 10)
  else none

/-- `hex2byte`, from `src/utils.rs`: `lv | (mv << 4)`; `none` models the
panic on a non-hex byte. -/
def hex2byte (lsb msb : Nat) : Option Nat := do
  let lv ← hex_map lsb
  let mv ← hex_map msb
  some (lv ||| (mv <<< 4))

/-- `hex2bytes`, from `src/utils.rs` lines 157-174: steps through the input
two bytes at a time (`step_by(2)`), the earlier byte being the high nibble;
a final odd byte is paired with the ASCII digit `'0'` (48) as low nibble.
`none` models the panic `hex2byte` raises on a non-hex byte. -/
def hex2bytes : List Nat → Option (List Nat)
  | [] => some []
  | [msb] => do
    let v ← hex2byte 48 msb
    some [v]
  | msb :: lsb :: rest => do
    let v ← hex2byte lsb msb
    let vs ← hex2bytes rest
    some (v :: vs)

/-- Whitespace bytes skipped by `ascii_85_decode` (`src/filter.rs` line 35):
LF, CR, TAB, space. -/
def a85_ws (b : Nat) : Bool := b == 10 || b == 13 || b == 9 || b == 32

/-- The flush of a (possibly partial) ASCII85 group (`src/filter.rs` lines
40-49): `value = Σ t[i] * 85^i` in a wrapping `u32`, then the first
`ASCII_85_LOOKUP[w-1]` bytes of `value.to_be_bytes()`, where
`ASCII_85_LOOKUP = [1, 1, 2, 3, 4]`. -/
def a85_flush (t : List Nat) (w : Nat) : List Nat :=
  let value := (t.foldr (fun v acc => acc * 85 + v) 0) % 2 ^ 32
  let k := [value / 2 ^ 24 % 256, value / 2 ^ 16 % 256, value / 2 ^ 8 % 256, value % 256]
  k.take ([1, 1, 2, 3, 4].getD (w - 1) 0)

/-- The loop body of `ascii_85_decode` (`src/filter.rs` lines 29-50) as a
recursion over the remaining input; `rest.isEmpty` is the source's
`i == l - 1` test.  `t` is the five-slot group buffer, `w` the number of
characters collected; `t[4 - w] = b - 33` stores the group most significant
first (the `u8` subtraction wraps). -/
def a85_loop (t : List Nat) (w : Nat) : List Nat → List Nat
  | [] => []
  | b :: rest =>
    if b == 122 then
      [0, 0, 0, 0] ++ a85_loop t w rest
    else if a85_ws b then
      a85_loop t w rest
    else
      let t' := t.set (4 - w) ((b + 256 - 33) % 256)
      let w' := w + 1
      if w' == 5 || rest.isEmpty then
        a85_flush t' w' ++ a85_loop [0, 0, 0, 0, 0] 0 rest
      else
        a85_loop t' w' rest

/-- `ascii_85_decode`, from `src/filter.rs` lines 21-52. -/
def ascii_85_decode (buf : List Nat) : List Nat :=
  a85_loop [0, 0, 0, 0, 0] 0 buf

/-- Byte values of a Lean string (all inputs used here are ASCII). -/
def strBytes (s : String) : List Nat := s.toList.map Char.toNat

/-- `PDFNumber`, from `src/objects.rs`.  The `f64` payload of `Real` is
represented by its bit pattern; no embedded function computes with it. -/
inductive PDFNumber where
  | signed (i : Int)
  | unsigned (n : Nat)
  | real (bits : Nat)
deriving DecidableEq, Repr

/-- `PDFObject`, from `src/objects.rs`.  `Dictionary` (a `HashMap` with
unique keys) is represented as an association list, `Stream` inline as its
metadata dictionary plus raw bytes, `PDFString` as its kind flag
(`true` = hexadecimal) plus bytes. -/
inductive PDFObject where
  | bool (b : Bool)
  | number (n : PDFNumber)
  | named (s : String)
  | string (hexKind : Bool) (buf : List Nat)
  | array (xs : List PDFObject)
  | dict (entries : List (String × PDFObject))
  | null
  | objectRef (obj_num gen_num : Nat)
  | indirectObject (obj_num gen_num : Nat) (inner : PDFObject)
  | stream (metadata : List (String × PDFObject)) (buf : List Nat)
deriving Repr

/-- `Dictionary::get`, from `src/objects.rs` (keys are unique, so the first
match is the match). -/
def dictGet (entries : List (String × PDFObject)) (key : String) : Option PDFObject :=
  (entries.find? (fun e => e.1 == key)).map (·.2)

/-- `PDFObject::as_name`, from `src/objects.rs`. -/
def PDFObject.as_name : PDFObject → Option String
  | .named s => some s
  | _ => none

/-- `Dictionary::get_named_value`, from `src/objects.rs`. -/
def dictGetNamedValue (entries : List (String × PDFObject)) (key : String) :
    Option String :=
  (dictGet entries key).bind PDFObject.as_name

/-- `Dictionary::named_value_was`, from `src/objects.rs`. -/
def dictNamedValueWas (entries : List (String × PDFObject)) (key except_ : String) :
    Bool :=
  match dictGetNamedValue entries key with
  | some value => value == except_
  | none => false

/-- `Dictionary::get_u64_num`, from `src/objects.rs`: the value must be an
`Unsigned` number. -/
def dictGetU64Num (entries : List (String × PDFObject)) (key : String) : Option Nat :=
  match dictGet entries key with
  | some (.number (.unsigned n)) => some n
  | _ => none

/-- `Dictionary::get_array_value`, from `src/objects.rs`. -/
def dictGetArrayValue (entries : List (String × PDFObject)) (key : String) :
    Option (List PDFObject) :=
  match dictGet entries key with
  | some (.array xs) => some xs
  | _ => none

/-- `Stream`, from `src/objects.rs`: metadata dictionary and raw bytes. -/
structure Stream where
  metadata : List (String × PDFObject)
  buf : List Nat

/-- `Stream::get_filters`, from `src/objects.rs` lines 457-470: a `/Filter`
array keeps only its name elements; a single name becomes a one-element
list; anything else yields the empty list. -/
def Stream.get_filters (s : Stream) : List String :=
  match dictGet s.metadata "Filter" with
  | some (.array arr) => arr.filterMap PDFObject.as_name
  | some (.named name) => [name]
  | _ => []

/-- `decode_stream_xx_decode`, from `src/filter.rs` lines 71-84.  The zlib
inflater (the external `flate2` crate) is abstracted as `flate`; the panic
`hex2bytes` can raise surfaces as `PDFErr.panicked`. -/
def decode_stream_xx_decode (flate : List Nat → Except PDFErr (List Nat))
    (filter : String) (buf : List Nat) : Except PDFErr (List Nat) :=
  if filter == "FlateDecode" then
    flate buf
  else if filter == "ASCIIHexDecode" then
    match hex2bytes buf with
    | some out => .ok out
    | none => .error .panicked
  else if filter == "ASCII85Decode" then
    .ok (ascii_85_decode buf)
  else
    .error (.notSupportFilter filter)

/-- The loop of `decode_stream` (`src/filter.rs` lines 106-115), walking the
filter list from last to first; when the accumulated buffer is empty the raw
stream bytes are used as the input slice. -/
def decode_stream_loop (flate : List Nat → Except PDFErr (List Nat)) (raw : List Nat)
    (bytes : List Nat) : List String → Except PDFErr (List Nat)
  | [] => .ok bytes
  | filter :: rest => do
    let slice := if bytes.isEmpty then raw else bytes
    let bytes' ← decode_stream_xx_decode flate filter slice
    decode_stream_loop flate raw bytes' rest

/-- `decode_stream`, from `src/filter.rs` lines 103-117: apply the declared
filters in reverse order, starting from an empty buffer. -/
def decode_stream (flate : List Nat → Except PDFErr (List Nat)) (s : Stream) :
    Except PDFErr (List Nat) :=
  decode_stream_loop flate s.buf [] s.get_filters.reverse

/-- `mixture_node_id!`, from `src/catalog.rs` lines 14-19:
`(obj_num as u64) << 16 | gen_num as u64`. -/
def mixture_node_id (obj_num gen_num : Nat) : Nat :=
  (obj_num <<< 16) ||| gen_num

/-- `separate_node_id!`, from `src/catalog.rs` lines 21-27:
`(node_id >> 16, node_id & 0xFFFF)`. -/
def separate_node_id (node_id : Nat) : Nat × Nat :=
  (node_id >>> 16, node_id &&& 0xFFFF)

/-- `PageNode`, from `src/catalog.rs`. -/
structure PageNode where
  attrs : List (String × PDFObject)
  count : Nat
  kids : Option (List Nat)
  parent_id : Option Nat

/-- The arena map `HashMap<NodeId, PageNode>` as an association list;
`insert` replaces the value of an existing key and appends a fresh key. -/
def nodeInsert (m : List (Nat × PageNode)) (k : Nat) (v : PageNode) :
    List (Nat × PageNode) :=
  if m.any (fun e => e.1 == k) then
    m.map (fun e => if e.1 == k then (k, v) else e)
  else
    m ++ [(k, v)]

/-- Monad of the page-tree builder: `Except.error none` models exhaustion of
the recursion-depth budget `fuel` (the Rust recursion has no such budget; the
budget makes the embedding total so that non-termination is observable as
exhaustion of every budget), `Except.error (some e)` a returned `PDFError`. -/
abbrev BuildM (α : Type) := Except (Option PDFErr) α

mutual

/-- `build_page_tree`, from `src/catalog.rs` lines 163-224, with the object
parser (`parse_with_offset`, not under `src/`) abstracted as `fetch` from a
file offset to the object parsed there.  Resolve the reference through
`xrefs_search`, fetch the indirect object at the entry's `value`, and either
record a leaf (no `/Type /Pages`) or recurse into every `/Kids` reference.
No set of visited ids is consulted. -/
def build_page_tree (fetch : Nat → Option PDFObject) (xrefs : List XEntry) :
    Nat → Nat × Nat → Option Nat → List (Nat × PageNode) →
    BuildM (List (Nat × PageNode))
  | 0, _, _, _ => .error none
  | fuel + 1, obj_ref, parent_id, nodes => do
    let entry ← match xrefs_search xrefs obj_ref with
      | .ok e => pure e
      | .error e => .error (some e)
    let inner ← match fetch entry.value with
      | some (.indirectObject _ _ v) => pure v
      | some _ => .error (some (.xrefEntryNotFound obj_ref.1 obj_ref.2))
      | none => .error (some (.pdfParseError "parse failed"))
    let d ← match inner with
      | .dict d => pure d
      | _ => .error (some (.pdfParseError "Page attributes is not a dict"))
    if !(dictNamedValueWas d "Type" "Pages") then
      pure (nodeInsert nodes (mixture_node_id obj_ref.1 obj_ref.2)
        ⟨d, 0, none, parent_id⟩)
    else do
      let count ← match dictGetU64Num d "Count" with
        | some c => pure c
        | none => .error (some (.pdfParseError "Page count not exist or not a number"))
      if count > 0 then do
        let arr ← match dictGetArrayValue d "Kids" with
          | some k => pure k
          | none => .error (some (.pdfParseError "Page kids not exist or not an array"))
        let (nodes', children) ←
          build_kids fetch xrefs fuel (mixture_node_id obj_ref.1 obj_ref.2) arr nodes
        pure (nodeInsert nodes' (mixture_node_id obj_ref.1 obj_ref.2)
          ⟨d, count, some children, parent_id⟩)
      else
        pure (nodeInsert nodes (mixture_node_id obj_ref.1 obj_ref.2)
          ⟨d, count, none, parent_id⟩)

/-- The `for kid in arr` loop of `build_page_tree` (`src/catalog.rs` lines
204-213): each kid must be an object reference; its packed id is pushed and
the builder recurses with the current node as parent. -/
def build_kids (fetch : Nat → Option PDFObject) (xrefs : List XEntry)
    (fuel : Nat) (tmp : Nat) :
    List PDFObject → List (Nat × PageNode) →
    BuildM (List (Nat × PageNode) × List Nat)
  | [], nodes => pure (nodes, [])
  | kid :: rest, nodes =>
    match kid with
    | .objectRef o g => do
      let nodes' ← build_page_tree fetch xrefs fuel (o, g) (some tmp) nodes
      let (nodes'', ids) ← build_kids fetch xrefs fuel tmp rest nodes'
      pure (nodes'', mixture_node_id o g :: ids)
    | _ => .error (some (.pdfParseError "Page kids not exist or not an object reference"))

end

/-- Is `c` an ASCII decimal digit? -/
def charIsDigit (c : Char) : Bool := 48 ≤ c.toNat && c.toNat ≤ 57

/-- The digits of `s` read as a decimal `Nat` (precondition checked by the
callers below: `s` is nonempty and all digits). -/
def digitsToNat (s : List Char) : Nat :=
  s.foldl (fun acc c => acc * 10 + (c.toNat - 48)) 0

/-- Rust `str::parse::<u8>`: an optional leading `+`, then one or more
decimal digits, value at most 255; anything else is `Err`. -/
def parseU8 (s : List Char) : Option Nat :=
  let body := match s with
    | '+' :: rest => rest
    | _ => s
  if body.isEmpty || !(body.all charIsDigit) then none
  else
    let v := digitsToNat body
    if v ≤ 255 then some v else none

/-- Rust `str::parse::<i32>`: an optional sign, then one or more decimal
digits, within the `i32` range. -/
def parseI32 (s : List Char) : Option Int :=
  let (neg, body) := match s with
    | '+' :: rest => (false, rest)
    | '-' :: rest => (true, rest)
    | _ => (false, s)
  if body.isEmpty || !(body.all charIsDigit) then none
  else
    let v : Int := digitsToNat body
    let v := if neg then -v else v
    if -(2 ^ 31) ≤ v && v < 2 ^ 31 then some v else none

/-- Rust `str::get(range)` on an ASCII string: `none` when the range is
inverted or runs past the end. -/
def strGetRange (text : List Char) (a b : Nat) : Option (List Char) :=
  if a ≤ b && b ≤ text.length then some ((text.drop a).take (b - a)) else none

/-- `parse_part`, from `src/date.rs` lines 123-127: slice the range, parse it
as `u8`, and fall back to `0` on any failure. -/
def parse_part (text : List Char) (a b : Nat) : Nat :=
  ((strGetRange text a b).bind parseU8).getD 0

/-- The arguments `Date::from_str` hands to `Date::new`
(`src/date.rs` line 170). -/
structure DateParts where
  year : Int
  month : Nat
  day : Nat
  hour : Nat
  minute : Nat
  second : Nat
  time_zero : Int
  utm : Nat
deriving DecidableEq, Repr

/-- `<Date as FromStr>::from_str`, from `src/date.rs` lines 129-173, embedded
up to the call of `Date::new` (whose arguments it returns).  `parse_part`
yields `0` for any missing or unparsable component; a `u8` timezone value is
reinterpreted `as i8` (wrapping at 128). -/
def date_from_str (text : List Char) : Except PDFErr DateParts :=
  let length := text.length
  let startsDColon := match text with
    | 'D' :: ':' :: _ => true
    | _ => false
  if !startsDColon || length < 6 then .error .illegalDateFormat
  else
    let year := (parseI32 ((text.drop 2).take 4)).getD 0
    let month := parse_part text 6 8
    let day := parse_part text 8 10
    let hour := parse_part text 10 12
    let minute := parse_part text 12 14
    let second := parse_part text 14 16
    if h : length ≥ 17 then
      let tmp := text.get ⟨16, by omega⟩
      if tmp = 'Z' then
        let index := 17
        if length > index && index + 3 != length then .error .illegalDateFormat
        else
          let utm := parse_part text (index + 1) length
          .ok ⟨year, month, day, hour, minute, second, 0, utm⟩
      else
        let plus_sign := tmp = '+'
        let minus_sign := tmp = '-'
        if !plus_sign || minus_sign || length < 19 then .error .illegalDateFormat
        else
          let tzRaw := parse_part text 17 19
          let tz : Int := if tzRaw ≥ 128 then (tzRaw : Int) - 256 else tzRaw
          let time_zero := if minus_sign then -tz else tz
          let index := 19
          if length > index && index + 3 != length then .error .illegalDateFormat
          else
            let utm := parse_part text (index + 1) length
            .ok ⟨year, month, day, hour, minute, second, time_zero, utm⟩
    else
      .ok ⟨year, month, day, hour, minute, second, 0, 0⟩

/-! ## Theorems -/

/-- Bits of a value below `2 ^ 16` vanish from position 16 on. -/
theorem testBit_eq_false_of_lt_two_pow_16 (g : Nat) (hg : g < 2 ^ 16) :
    ∀ j, 16 ≤ j → g.testBit j = false := by
  intro j hj
  apply Nat.testBit_lt_two_pow
  calc g < 2 ^ 16 := hg
    _ ≤ 2 ^ j := Nat.pow_le_pow_right (by omega) hj

/-- C9: for `obj_num : u32` and `gen_num : u16`, packing into a `NodeId`
(`obj_num` shifted into the high bits, `gen_num` in the low 16 bits) and
unpacking returns exactly the original pair, so the keying is losslessly
decodable and injective. -/
theorem c9_node_id_roundtrip (o g : Nat) (ho : o < 2 ^ 32) (hg : g < 2 ^ 16) :
    separate_node_id (mixture_node_id o g) = (o, g) := by
  have hgb := testBit_eq_false_of_lt_two_pow_16 g hg
  unfold separate_node_id mixture_node_id
  refine Prod.ext ?_ ?_
  · show ((o <<< 16) ||| g) >>> 16 = o
    apply Nat.eq_of_testBit_eq
    intro i
    rw [Nat.testBit_shiftRight, Nat.testBit_or, Nat.testBit_shiftLeft]
    simp [hgb (16 + i) (by omega), hgb (i + 16) (by omega), Nat.add_comm 16 i,
      Nat.add_sub_cancel]
  · show ((o <<< 16) ||| g) &&& 0xFFFF = g
    have h1 : (0xFFFF : Nat) = 2 ^ 16 - 1 := by norm_num
    rw [h1, Nat.and_pow_two_sub_one_eq_mod]
    apply Nat.eq_of_testBit_eq
    intro i
    rw [Nat.testBit_mod_two_pow, Nat.testBit_or, Nat.testBit_shiftLeft]
    by_cases hi : i < 16
    · have h2 : ¬ (16 ≤ i) := by omega
      simp [hi, h2]
    · simp [hi, hgb i (by omega)]

/-- C9 witness: the round trip at `obj_num = 7`, `gen_num = 3`. -/
theorem c9_node_id_roundtrip_witness :
    7 < 2 ^ 32 ∧ 3 < 2 ^ 16 ∧ separate_node_id (mixture_node_id 7 3) = (7, 3) :=
  ⟨by norm_num, by norm_num, c9_node_id_roundtrip 7 3 (by norm_num) (by norm_num)⟩

/-- C3 counterexample: `xrefs_search` resolves a reference to an entry whose
`in_use` flag is `false` (a free entry), and `build_page_tree` then uses that
free entry's `value` as a file offset and succeeds — the claim says the
resolution must fail. -/
theorem c3_counterexample :
    xrefs_search [⟨999, false, 1, 0⟩] (1, 0) = .ok ⟨999, false, 1, 0⟩ ∧
    (XEntry.mk 999 false 1 0).is_freed = true ∧
    build_page_tree
      (fun off => if off == 999 then some (.indirectObject 1 0 (.dict [("K", .null)])) else none)
      [⟨999, false, 1, 0⟩] 1 (1, 0) none []
      = .ok [(mixture_node_id 1 0, ⟨[("K", .null)], 0, none, none⟩)] := by
  refine ⟨rfl, rfl, ?_⟩
  simp only [build_page_tree, xrefs_search, nodeInsert, dictNamedValueWas,
    dictGetNamedValue, dictGet, PDFObject.as_name, mixture_node_id]
  rfl

/-- C3 amended: resolution through `xrefs_search` succeeds exactly when the
table holds an entry with matching `obj_num` and `gen_num`; the `in_use`
flag is never consulted there, so a free entry is returned and its `value`
is used as a file offset by the catalog/page/outline/info paths.  Only the
index-based `read_object` rejects free entries, yielding `Ok(None)`. -/
theorem c3_resolution_ignores_in_use :
    (∀ (xrefs : List XEntry) (o g : Nat),
      (∃ e, xrefs_search xrefs (o, g) = .ok e) ↔
        ∃ e ∈ xrefs, e.obj_num = o ∧ e.gen_num = g) ∧
    (∀ (fetch : Nat → Option Unit) (xrefs : List XEntry) (i : Nat)
      (h : i < xrefs.length), (xrefs.get ⟨i, h⟩).is_freed = true →
        read_object fetch xrefs i = .ok none) := by
  constructor
  · intro xrefs o g
    unfold xrefs_search
    constructor
    · rintro ⟨e, he⟩
      rcases hfind : xrefs.find? (fun x => x.obj_num == o && x.gen_num == g) with _ | e'
      · rw [hfind] at he; cases he
      · have hmem := List.mem_of_find?_eq_some hfind
        have hp := List.find?_some hfind
        simp only [Bool.and_eq_true, beq_iff_eq] at hp
        exact ⟨e', hmem, hp.1, hp.2⟩
    · rintro ⟨e, hmem, ho, hg⟩
      have : (xrefs.find? (fun x => x.obj_num == o && x.gen_num == g)).isSome := by
        rw [List.find?_isSome]
        exact ⟨e, hmem, by simp [ho, hg]⟩
      rcases hfind : xrefs.find? (fun x => x.obj_num == o && x.gen_num == g) with _ | e'
      · rw [hfind] at this; simp at this
      · exact ⟨e', by rw [hfind]⟩
  · intro fetch xrefs i h hfree
    unfold read_object
    simp only [List.get_eq_getElem] at hfree
    simp [h, hfree]

/-- C3 witness: both conjuncts applied to the one-entry table holding a free
entry for `(1, 0)`. -/
theorem c3_resolution_ignores_in_use_witness :
    (∃ e, xrefs_search [⟨999, false, 1, 0⟩] (1, 0) = .ok e) ∧
    read_object (fun _ => some ()) [⟨999, false, 1, 0⟩] 0 = .ok none := by
  refine ⟨?_, ?_⟩
  · exact (c3_resolution_ignores_in_use.1 [⟨999, false, 1, 0⟩] 1 0).mpr
      ⟨⟨999, false, 1, 0⟩, by simp, rfl, rfl⟩
  · exact c3_resolution_ignores_in_use.2 (fun _ => some ()) [⟨999, false, 1, 0⟩] 0
      (by simp) rfl

/-- C8: the `-HH'mm` timezone arm of `Date::from_str` is unreachable — the
guard `!plus_sign || minus_sign` errors whenever the indicator is `-` — so a
date with a negative timezone offset is rejected with `IllegalDateFormat`
although the `if minus_sign { -tz }` branch and the `Date::new`
documentation (offset −12 to +12) show it was meant to parse; a `+HH'mm`
timezone does parse, and absent month/day components default to 0, not 1. -/
theorem c8_minus_timezone_rejected :
    date_from_str "D:20240102030405-08'00".toList = .error .illegalDateFormat ∧
    date_from_str "D:20240102030405+08'00".toList = .ok ⟨2024, 1, 2, 3, 4, 5, 8, 0⟩ ∧
    date_from_str "D:2024".toList = .ok ⟨2024, 0, 0, 0, 0, 0, 0, 0⟩ := by
  refine ⟨rfl, rfl, rfl⟩

/-- C10: a stream whose metadata has no `/Filter` entry, or whose `/Filter`
value is neither a name nor an array, or is an array containing no names,
yields an empty filter list, and `decode_stream` then returns the empty byte
vector — never the stream's raw bytes (whenever those are nonempty). -/
theorem c10_unfiltered_stream_decodes_empty
    (flate : List Nat → Except PDFErr (List Nat)) (s : Stream)
    (h : match dictGet s.metadata "Filter" with
      | some (.array arr) => ∀ x ∈ arr, x.as_name = none
      | some (.named _) => False
      | _ => True) :
    s.get_filters = [] ∧ decode_stream flate s = .ok [] ∧
      (s.buf ≠ [] → decode_stream flate s ≠ .ok s.buf) := by
  have hfil : s.get_filters = [] := by
    unfold Stream.get_filters
    rcases hget : dictGet s.metadata "Filter" with _ | o
    · rfl
    · rw [hget] at h
      cases o with
      | array arr =>
        simp only [List.filterMap_eq_nil_iff]
        exact h
      | named n => exact absurd h (by simp)
      | bool b => rfl
      | number n => rfl
      | string k b => rfl
      | dict d => rfl
      | null => rfl
      | objectRef a b => rfl
      | indirectObject a b i => rfl
      | stream m b => rfl
  have hdec : decode_stream flate s = .ok [] := by
    unfold decode_stream
    rw [hfil]
    rfl
  refine ⟨hfil, hdec, fun hne => ?_⟩
  rw [hdec]
  intro hcontra
  exact hne (Except.ok.inj hcontra).symm

/-- C10 witness: a stream with nonempty raw bytes and no `/Filter` key
decodes to the empty vector rather than its raw bytes. -/
theorem c10_unfiltered_stream_decodes_empty_witness :
    Stream.get_filters ⟨[("Length", .number (.unsigned 3))], [1, 2, 3]⟩ = [] ∧
    decode_stream (fun _ => .ok []) ⟨[("Length", .number (.unsigned 3))], [1, 2, 3]⟩
      = .ok [] ∧
    ([1, 2, 3] : List Nat) ≠ [] ∧
    decode_stream (fun _ => .ok []) ⟨[("Length", .number (.unsigned 3))], [1, 2, 3]⟩
      ≠ .ok [1, 2, 3] := by
  have h := c10_unfiltered_stream_decodes_empty (fun _ => .ok [])
    ⟨[("Length", .number (.unsigned 3))], [1, 2, 3]⟩ (by simp [dictGet])
  exact ⟨h.1, h.2.1, by simp, h.2.2 (by simp)⟩

/-- C7 counterexample: `hex2bytes` does not skip whitespace — a leading space
byte reaches the `panic!("Invalid hex byte")` arm (modelled as `none`),
while the same input without the space decodes. -/
theorem c7_counterexample :
    hex2bytes (strBytes " 01") = none ∧ hex2bytes (strBytes "01") = some [1] := by
  exact ⟨rfl, rfl⟩

/-- C7 amended: on inputs consisting solely of case-insensitive hex digits
(no whitespace) `hex2bytes` is total: pairs are combined high digit first
and a trailing odd digit is padded with a zero low nibble, so the output has
`⌈n/2⌉` bytes; the two cited conversions hold.  A whitespace byte is not
skipped but panics. -/
theorem c7_hex2bytes_total_on_hex :
    (∀ bs : List Nat, (∀ b ∈ bs, (hex_map b).isSome) →
      ∃ out, hex2bytes bs = some out ∧ out.length = (bs.length + 1) / 2) ∧
    hex2bytes (strBytes "012F3D4C") = some [0x01, 0x2F, 0x3D, 0x4C] ∧
    hex2bytes (strBytes "012F3D4") = some [0x01, 0x2F, 0x3D, 0x40] := by
  refine ⟨?_, rfl, rfl⟩
  intro bs hhex
  induction bs using hex2bytes.induct with
  | case1 =>
    exact ⟨[], rfl, rfl⟩
  | case2 msb =>
    have hm := hhex msb (by simp)
    rcases hv : hex_map msb with _ | v
    · rw [hv] at hm; simp at hm
    · have h48 : hex_map 48 = some 0 := rfl
      refine ⟨[0 ||| (v <<< 4)], ?_, ?_⟩
      · simp [hex2bytes, hex2byte, h48, hv]
      · simp
  | case3 msb lsb rest ih =>
    have hm := hhex msb (by simp)
    have hl := hhex lsb (by simp)
    obtain ⟨out, hout, hlen⟩ := ih (fun b hb => hhex b (by simp [hb]))
    rcases hvm : hex_map msb with _ | vm
    · rw [hvm] at hm; simp at hm
    rcases hvl : hex_map lsb with _ | vl
    · rw [hvl] at hl; simp at hl
    refine ⟨(vl ||| (vm <<< 4)) :: out, ?_, ?_⟩
    · simp [hex2bytes, hex2byte, hvm, hvl, hout]
    · simp [hlen]
      omega

/-- C7 witness: totality applied to the all-hex input `"ab"`. -/
theorem c7_hex2bytes_total_on_hex_witness :
    ∃ out, hex2bytes (strBytes "ab") = some out ∧ out.length = 1 := by
  exact c7_hex2bytes_total_on_hex.1 (strBytes "ab") (by decide)

/-- C6 counterexample: appending a whitespace byte at the very end of an
ASCII85 input changes the decoded output — the final partial group is
dropped because the flush only triggers when the last input byte reaches
the group logic — contradicting "inserting whitespace anywhere, including
at the end, never changes the decoded output". -/
theorem c6_counterexample :
    ascii_85_decode (strBytes "87cURDn" ++ [10]) ≠ ascii_85_decode (strBytes "87cURDn") ∧
    ascii_85_decode (strBytes "87cURDn" ++ [10]) = strBytes "Hell" ∧
    ascii_85_decode (strBytes "87cURDn") = strBytes "Hello" := by
  exact ⟨by decide, rfl, rfl⟩

/-- Inserting a whitespace byte strictly before the end of the input leaves
the ASCII85 loop's state and output unchanged. -/
theorem a85_loop_ws_insert (w : Nat) (l2 : List Nat) (hw : a85_ws w = true)
    (hne : l2 ≠ []) :
    ∀ (l1 : List Nat) (t : List Nat) (k : Nat),
      a85_loop t k (l1 ++ w :: l2) = a85_loop t k (l1 ++ l2) := by
  intro l1
  have hwz : (w == 122) = false := by
    simp only [beq_eq_false_iff_ne, ne_eq]
    intro h
    rw [h] at hw
    simp [a85_ws] at hw
  induction l1 with
  | nil =>
    intro t k
    show a85_loop t k (w :: l2) = a85_loop t k l2
    simp only [a85_loop, hwz, hw]
    simp
  | cons b l1' ih =>
    intro t k
    show a85_loop t k (b :: (l1' ++ w :: l2)) = a85_loop t k (b :: (l1' ++ l2))
    simp only [a85_loop, List.append_eq]
    have hrest : (l1' ++ w :: l2).isEmpty = (l1' ++ l2).isEmpty := by
      cases l1' <;> cases l2 <;> simp_all
    rw [hrest]
    simp only [ih]

/-- C6 amended: `ascii_85_decode` treats groups of five characters in
`!`..`u` as base-85 digits, maps `z` to four zero bytes, and skips
whitespace inserted anywhere strictly before the final input byte; but a
trailing whitespace byte after an incomplete final group drops that group
(the flush only fires when the last byte of the input reaches the group
logic), so `decode(b"87cURDn" ++ b"\n") = b"Hell"`.  The cited examples
hold: `decode(b"87cURDn") = b"Hello"`, `decode(b"z")` is four zero bytes,
and `decode(b"87cURD\n\tn") = b"Hello"`. -/
theorem c6_ascii85_examples :
    (∀ (l1 l2 : List Nat) (w : Nat), a85_ws w = true → l2 ≠ [] →
      ascii_85_decode (l1 ++ w :: l2) = ascii_85_decode (l1 ++ l2)) ∧
    ascii_85_decode (strBytes "87cURDn") = strBytes "Hello" ∧
    ascii_85_decode (strBytes "z") = [0, 0, 0, 0] ∧
    ascii_85_decode (strBytes "87cURD\n\tn") = strBytes "Hello" ∧
    ascii_85_decode (strBytes "87cURDn" ++ [10]) = strBytes "Hell" := by
  refine ⟨?_, rfl, rfl, rfl, rfl⟩
  intro l1 l2 w hw hne
  unfold ascii_85_decode
  exact a85_loop_ws_insert w l2 hw hne l1 [0, 0, 0, 0, 0] 0

/-- C6 witness: whitespace inserted mid-input, on the cited example. -/
theorem c6_ascii85_examples_witness :
    ascii_85_decode (strBytes "87c" ++ 10 :: strBytes "URDn") =
      ascii_85_decode (strBytes "87c" ++ strBytes "URDn") := by
  exact c6_ascii85_examples.1 (strBytes "87c") (strBytes "URDn") 10 rfl (by decide)

/-- C4 counterexample: with two trailers in the chain both holding `/Root`
(the newest first, with `(1,0)`, then the older one with `(2,0)`),
`merge_xref_table` returns the older `(2,0)` — each later-processed (older)
trailer overwrites the catalog reference — not the newest trailer's
`(1,0)` as the claim states. -/
theorem c4_counterexample :
    (merge_xref_table [⟨[], some (1, 0), none⟩, ⟨[], some (2, 0), none⟩]).2.1
      = some (2, 0) ∧
    (some (2, 0) : Option (Nat × Nat)) ≠ some (1, 0) := by
  exact ⟨rfl, by decide⟩

/-- The `/Info` reference a trailer contributes: only read when the same
trailer also holds `/Root` (`src/document.rs` lines 234-239). -/
def root_info (s : XrefSection) : Option (Nat × Nat) :=
  match s.root, s.info with
  | some _, some j => some j
  | _, _ => none

/-- The catalog/info components of `merge_xref_loop`: each processed section
with `/Root` overwrites the accumulated value, so the result is the first
`/Root` of the reversed chain (the last-processed one), with the incoming
accumulator as fallback; likewise for `/Info` restricted to trailers that
also hold `/Root`. -/
theorem merge_xref_loop_trailer (chain : List XrefSection) :
    ∀ (acc : List XEntry) (c i : Option (Nat × Nat)),
      (merge_xref_loop acc c i chain).2 =
        ((chain.reverse.findSome? (·.root)).or c,
          (chain.reverse.findSome? root_info).or i) := by
  induction chain with
  | nil =>
    intro acc c i
    simp [merge_xref_loop]
  | cons s rest ih =>
    intro acc c i
    show (merge_xref_loop (merge_entries_step acc s.entries)
        (merge_trailer_step c i s).1 (merge_trailer_step c i s).2 rest).2 = _
    rw [ih]
    have hc : (merge_trailer_step c i s).1 = s.root.or c := by
      unfold merge_trailer_step
      rcases s.root with _ | r
      · rfl
      · rcases s.info with _ | j <;> rfl
    have hi : (merge_trailer_step c i s).2 = (root_info s).or i := by
      unfold merge_trailer_step root_info
      rcases s.root with _ | r
      · rfl
      · rcases s.info with _ | j <;> rfl
    rw [hc, hi]
    have hrev : (s :: rest).reverse = rest.reverse ++ [s] := by simp
    have hsing : ∀ (f : XrefSection → Option (Nat × Nat)),
        List.findSome? f [s] = f s := by
      intro f
      rcases h : f s with _ | b <;> simp [List.findSome?, h]
    rw [hrev, List.findSome?_append, List.findSome?_append, hsing, hsing,
      Option.or_assoc, Option.or_assoc]

/-- C4 amended: when several trailers in the `/Prev` chain contain `/Root`,
`merge_xref_table` returns the `/Root` of the last-processed — i.e. the
oldest — such trailer (every later-processed trailer overwrites the
reference), and the `/Info` of the oldest trailer containing both `/Root`
and `/Info`. -/
theorem c4_oldest_root_wins (chain : List XrefSection) :
    (merge_xref_table chain).2.1 = chain.reverse.findSome? (·.root) ∧
    (merge_xref_table chain).2.2 = chain.reverse.findSome? root_info := by
  unfold merge_xref_table
  rw [show (merge_xref_loop [] none none chain).2 =
    ((chain.reverse.findSome? (·.root)).or none,
      (chain.reverse.findSome? root_info).or none) from
    merge_xref_loop_trailer chain [] none none]
  constructor
  · show (chain.reverse.findSome? (·.root)).or none = _
    rcases h : chain.reverse.findSome? (·.root) with _ | r <;> simp [h, Option.or]
  · show (chain.reverse.findSome? root_info).or none = _
    rcases h : chain.reverse.findSome? root_info with _ | r <;> simp [h, Option.or]

/-- Two entries clash when they name the same object number. -/
def objR (a b : XEntry) : Prop := a.obj_num ≠ b.obj_num

instance : DecidableRel objR := fun a b => by
  unfold objR
  infer_instance

/-- Some entry of `l` names object number `o`. -/
def obj_mem (o : Nat) (l : List XEntry) : Prop := ∃ x ∈ l, x.obj_num = o

/-- The first entry of `l` naming object number `o` (the lookup both
`merge_xref_table` and the tie-break notion of "first occurrence" use). -/
def find_obj (l : List XEntry) (o : Nat) : Option XEntry :=
  l.find? (fun x => x.obj_num == o)

/-- C1 counterexample: a chain consisting of one section that lists
`obj_num = 5` twice is copied wholesale (`extend_from_slice`), so the merged
table keeps both entries — it does not hold at most one entry per
`obj_num`. -/
theorem c1_counterexample :
    (merge_xref_table [⟨[⟨10, true, 5, 0⟩, ⟨20, true, 5, 0⟩], none, none⟩]).1
      = [⟨10, true, 5, 0⟩, ⟨20, true, 5, 0⟩] ∧
    ¬ (merge_xref_table [⟨[⟨10, true, 5, 0⟩, ⟨20, true, 5, 0⟩], none, none⟩]).1.Pairwise objR := by
  refine ⟨rfl, ?_⟩
  intro hpair
  rw [show (merge_xref_table [⟨[⟨10, true, 5, 0⟩, ⟨20, true, 5, 0⟩], none, none⟩]).1
    = [⟨10, true, 5, 0⟩, ⟨20, true, 5, 0⟩] from rfl] at hpair
  have := (List.pairwise_cons.mp hpair).1 ⟨20, true, 5, 0⟩ (by simp)
  exact this rfl

/-- The first component of `merge_xref_loop` ignores the catalog/info state:
it is the fold of `merge_entries_step` over the sections. -/
theorem merge_xref_loop_fst (chain : List XrefSection) :
    ∀ (acc : List XEntry) (c i : Option (Nat × Nat)),
      (merge_xref_loop acc c i chain).1 =
        chain.foldl (fun a s => merge_entries_step a s.entries) acc := by
  induction chain with
  | nil => intro acc c i; rfl
  | cons s rest ih =>
    intro acc c i
    show (merge_xref_loop (merge_entries_step acc s.entries)
        (merge_trailer_step c i s).1 (merge_trailer_step c i s).2 rest).1 = _
    rw [ih]
    rfl

/-- In a list whose entries have pairwise-distinct object numbers, the first
occurrence of each member's object number is that member itself. -/
theorem find_obj_self_of_pairwise (es : List XEntry) (h : es.Pairwise objR) :
    ∀ e ∈ es, find_obj es e.obj_num = some e := by
  induction es with
  | nil => intro e he; cases he
  | cons a es' ih =>
    intro e he
    rcases List.pairwise_cons.mp h with ⟨hhead, htail⟩
    rcases List.mem_cons.mp he with rfl | he'
    · unfold find_obj
      simp [List.find?]
    · have hne : a.obj_num ≠ e.obj_num := hhead e he'
      unfold find_obj
      rw [List.find?_cons_of_neg _ (by simp [hne])]
      exact ih htail e he'

/-- The three invariants of the xref merge: the accumulated table has
pairwise-distinct object numbers, every accumulated entry is the first
occurrence of its object number among all entries seen so far, and the
accumulated table covers exactly the object numbers seen so far. -/
def MergeInv (acc seen : List XEntry) : Prop :=
  acc.Pairwise objR ∧
  (∀ e ∈ acc, find_obj seen e.obj_num = some e) ∧
  (∀ o, obj_mem o seen ↔ obj_mem o acc)

/-- The per-entry fold inside `merge_entries_step` preserves the merge
invariants, extending the seen list entry by entry. -/
theorem merge_fold_inv (es : List XEntry) :
    ∀ (acc seen : List XEntry), MergeInv acc seen →
      MergeInv
        (es.foldl
          (fun acc entry =>
            match acc.find? (fun it => it.obj_num == entry.obj_num) with
            | none => acc ++ [entry]
            | some _ => acc)
          acc)
        (seen ++ es) := by
  induction es with
  | nil =>
    intro acc seen hinv
    simpa using hinv
  | cons e es' ih =>
    intro acc seen hinv
    obtain ⟨h1, h2, h3⟩ := hinv
    have hstep : MergeInv
        (match acc.find? (fun it => it.obj_num == e.obj_num) with
          | none => acc ++ [e]
          | some _ => acc)
        (seen ++ [e]) := by
      rcases hfind : acc.find? (fun it => it.obj_num == e.obj_num) with _ | x
      · -- miss: e is appended; its object number is new
        simp only [hfind]
        have hmiss : ∀ x ∈ acc, x.obj_num ≠ e.obj_num := by
          intro x hx
          have := List.find?_eq_none.mp hfind x hx
          simpa using this
        have hseen_none : find_obj seen e.obj_num = none := by
          apply List.find?_eq_none.mpr
          intro x hx
          simp only [beq_iff_eq]
          intro hobj
          have : obj_mem e.obj_num acc := (h3 e.obj_num).mp ⟨x, hx, hobj⟩
          obtain ⟨y, hy, hyobj⟩ := this
          exact hmiss y hy hyobj
        refine ⟨?_, ?_, ?_⟩
        · rw [List.pairwise_append]
          exact ⟨h1, List.pairwise_singleton _ _, fun a ha b hb => by
            rw [List.mem_singleton.mp hb]; exact hmiss a ha⟩
        · intro y hy
          rcases List.mem_append.mp hy with hy' | hy'
          · unfold find_obj at h2 ⊢
            rw [List.find?_append, h2 y hy']
            rfl
          · rw [List.mem_singleton.mp hy']
            unfold find_obj at hseen_none ⊢
            rw [List.find?_append, hseen_none]
            simp [List.find?]
        · intro o
          constructor
          · rintro ⟨x, hx, hobj⟩
            rcases List.mem_append.mp hx with hx' | hx'
            · obtain ⟨y, hy, hyobj⟩ := (h3 o).mp ⟨x, hx', hobj⟩
              exact ⟨y, List.mem_append.mpr (Or.inl hy), hyobj⟩
            · rw [List.mem_singleton.mp hx'] at hobj
              exact ⟨e, List.mem_append.mpr (Or.inr (by simp)), hobj⟩
          · rintro ⟨x, hx, hobj⟩
            rcases List.mem_append.mp hx with hx' | hx'
            · obtain ⟨y, hy, hyobj⟩ := (h3 o).mpr ⟨x, hx', hobj⟩
              exact ⟨y, List.mem_append.mpr (Or.inl hy), hyobj⟩
            · rw [List.mem_singleton.mp hx'] at hobj
              exact ⟨e, List.mem_append.mpr (Or.inr (by simp)), hobj⟩
      · -- hit: e is discarded; its object number is already covered
        simp only [hfind]
        have hx := List.find?_some hfind
        have hxmem := List.mem_of_find?_eq_some hfind
        simp only [beq_iff_eq] at hx
        refine ⟨h1, ?_, ?_⟩
        · intro y hy
          unfold find_obj at h2 ⊢
          rw [List.find?_append, h2 y hy]
          rfl
        · intro o
          constructor
          · rintro ⟨z, hz, hobj⟩
            rcases List.mem_append.mp hz with hz' | hz'
            · exact (h3 o).mp ⟨z, hz', hobj⟩
            · rw [List.mem_singleton.mp hz'] at hobj
              exact ⟨x, hxmem, by rw [hx, hobj]⟩
          · rintro ⟨z, hz, hobj⟩
            obtain ⟨y, hy, hyobj⟩ := (h3 o).mpr ⟨z, hz, hobj⟩
            exact ⟨y, List.mem_append.mpr (Or.inl hy), hyobj⟩
    have := ih _ _ hstep
    simpa [List.append_assoc] using this

/-- Processing one section through `merge_entries_step` preserves the merge
invariants, provided the section itself has pairwise-distinct object
numbers. -/
theorem merge_section_inv (es acc seen : List XEntry)
    (hnodup : es.Pairwise objR) (hinv : MergeInv acc seen) :
    MergeInv (merge_entries_step acc es) (seen ++ es) := by
  obtain ⟨h1, h2, h3⟩ := hinv
  unfold merge_entries_step
  rcases hacc : acc with _ | ⟨a, as⟩
  · -- the accumulated table is empty: the section is copied wholesale,
    -- and the invariant forces the seen list to be empty too
    have hseen : seen = [] := by
      rcases hs : seen with _ | ⟨x, xs⟩
      · rfl
      · exfalso
        have : obj_mem x.obj_num acc := (h3 x.obj_num).mp ⟨x, by rw [hs]; simp, rfl⟩
        rw [hacc] at this
        obtain ⟨y, hy, _⟩ := this
        cases hy
    subst hseen
    simp only [List.isEmpty_nil, if_true, List.nil_append]
    refine ⟨hnodup, find_obj_self_of_pairwise es hnodup, fun o => Iff.rfl⟩
  · have hne : ((a :: as : List XEntry).isEmpty) = false := rfl
    rw [hne]
    simp only [Bool.false_eq_true, if_false]
    rw [← hacc]
    exact merge_fold_inv es acc seen ⟨h1, h2, h3⟩

/-- Folding `merge_entries_step` over a whole chain of sections preserves the
merge invariants. -/
theorem merge_chain_inv (chain : List XrefSection)
    (hall : ∀ s ∈ chain, s.entries.Pairwise objR) :
    ∀ (acc seen : List XEntry), MergeInv acc seen →
      MergeInv (chain.foldl (fun a s => merge_entries_step a s.entries) acc)
        (seen ++ (chain.map (·.entries)).flatten) := by
  induction chain with
  | nil =>
    intro acc seen hinv
    simpa using hinv
  | cons s rest ih =>
    intro acc seen hinv
    have hstep := merge_section_inv s.entries acc seen (hall s (by simp)) hinv
    have := ih (fun t ht => hall t (by simp [ht])) _ _ hstep
    simpa [List.append_assoc] using this

/-- C1 amended: provided no single xref section lists the same `obj_num`
twice, the merged table contains at most one entry per `obj_num`, every
merged entry is the first occurrence of its object number in the walk order
(newest section first) — later, older entries are discarded — and the merged
table covers exactly the object numbers of the walked sections.  (A section
that does list an `obj_num` twice while the accumulated table is still empty
is copied wholesale, duplicates included, as the counterexample shows.) -/
theorem c1_first_occurrence_wins (chain : List XrefSection)
    (h : ∀ s ∈ chain, s.entries.Pairwise objR) :
    (merge_xref_table chain).1.Pairwise objR ∧
    (∀ e ∈ (merge_xref_table chain).1,
      find_obj ((chain.map (·.entries)).flatten) e.obj_num = some e) ∧
    (∀ o, obj_mem o ((chain.map (·.entries)).flatten) ↔
      obj_mem o (merge_xref_table chain).1) := by
  have hbase : MergeInv [] [] := by
    refine ⟨List.Pairwise.nil, ?_, ?_⟩
    · intro e he; cases he
    · intro o; rfl
  have hfinal := merge_chain_inv chain h [] [] hbase
  rw [List.nil_append] at hfinal
  unfold merge_xref_table
  rw [merge_xref_loop_fst chain [] none none]
  exact hfinal

/-- A page-tree object store with a self-referential `/Kids` entry: object
`(1, 0)` lives at offset 0 and is a `/Type /Pages` node whose `/Kids` array
references `(1, 0)` itself — a node revisited while it is being built. -/
def cyclic_fetch : Nat → Option PDFObject := fun off =>
  if off == 0 then
    some (.indirectObject 1 0 (.dict
      [("Type", .named "Pages"), ("Count", .number (.unsigned 1)),
       ("Kids", .array [.objectRef 1 0])]))
  else none

/-- The xref table for `cyclic_fetch`: one in-use entry for `(1, 0)`. -/
def cyclic_xrefs : List XEntry := [⟨0, true, 1, 0⟩]

/-- The page-tree builder diverges on this store: every recursion-depth
budget is exhausted, so it neither succeeds nor returns any `PDFError` —
in particular never `PDFParseError("cycle")`. -/
def builder_diverges (fetch : Nat → Option PDFObject) (xrefs : List XEntry)
    (r : Nat × Nat) : Prop :=
  ∀ (fuel : Nat) (parent : Option Nat) (nodes : List (Nat × PageNode)),
    build_page_tree fetch xrefs fuel r parent nodes = .error none

/-- C2 counterexample: on the concrete page tree whose `/Kids` revisit the
node being built, the builder does not terminate — it revisits `(1, 0)`
at every recursion depth and exhausts any budget, instead of maintaining a
set of `NodeId`s and failing with `PDFParseError("cycle")` as claimed (no
such set exists in `build_page_tree`). -/
theorem c2_counterexample : builder_diverges cyclic_fetch cyclic_xrefs (1, 0) := by
  intro fuel
  induction fuel with
  | zero =>
    intro parent nodes
    rw [build_page_tree.eq_def]
  | succ n ih =>
    intro parent nodes
    have hsearch : xrefs_search cyclic_xrefs (1, 0) = .ok ⟨0, true, 1, 0⟩ := rfl
    have hfetch : cyclic_fetch 0 = some (.indirectObject 1 0 (.dict
      [("Type", .named "Pages"), ("Count", .number (.unsigned 1)),
       ("Kids", .array [.objectRef 1 0])])) := rfl
    rw [build_page_tree.eq_def]
    simp [hsearch, hfetch, dictNamedValueWas, dictGetNamedValue, dictGet,
      PDFObject.as_name, dictGetU64Num, dictGetArrayValue, List.find?]
    rw [build_kids.eq_def]
    simp only [ih]
    rfl

/-- C2 amended: the page-tree builder maintains no set of `NodeId`s being
built and never reports a cycle; whenever the resolved node `(o, g)` is a
`/Type /Pages` node with positive `/Count` whose `/Kids` array starts with a
reference back to `(o, g)` itself, the recursion revisits the same id at
every depth and exhausts every recursion budget — it terminates only on
inputs whose kid recursion is depth-bounded. -/
theorem c2_no_cycle_detection (fetch : Nat → Option PDFObject) (xrefs : List XEntry)
    (o g o2 g2 c : Nat) (e : XEntry) (d : List (String × PDFObject))
    (rest : List PDFObject)
    (hsearch : xrefs_search xrefs (o, g) = .ok e)
    (hfetch : fetch e.value = some (.indirectObject o2 g2 (.dict d)))
    (hpages : dictNamedValueWas d "Type" "Pages" = true)
    (hcount : dictGetU64Num d "Count" = some c) (hpos : 0 < c)
    (hkids : dictGetArrayValue d "Kids" = some (.objectRef o g :: rest)) :
    ∀ (fuel : Nat) (parent : Option Nat) (nodes : List (Nat × PageNode)),
      build_page_tree fetch xrefs fuel (o, g) parent nodes = .error none := by
  intro fuel
  induction fuel with
  | zero =>
    intro parent nodes
    rw [build_page_tree.eq_def]
  | succ n ih =>
    intro parent nodes
    rw [build_page_tree.eq_def]
    simp [hsearch, hfetch, hpages, hcount, hpos, hkids]
    rw [build_kids.eq_def]
    simp only [ih]
    rfl

/-- C2 witness: the general divergence theorem applied to the concrete
self-referential store, at recursion budget 3. -/
theorem c2_no_cycle_detection_witness :
    build_page_tree cyclic_fetch cyclic_xrefs 3 (1, 0) none [] = .error none := by
  exact c2_no_cycle_detection cyclic_fetch cyclic_xrefs 1 0 1 0 1 ⟨0, true, 1, 0⟩
    [("Type", .named "Pages"), ("Count", .number (.unsigned 1)),
      ("Kids", .array [.objectRef 1 0])] []
    rfl rfl rfl rfl (by decide) rfl 3 none []

/-- C1 witness: a two-section chain where the older section redefines
`obj_num = 5`; the merged table keeps the newer entry only. -/
theorem c1_first_occurrence_wins_witness :
    (∀ s ∈ ([⟨[⟨10, true, 5, 0⟩], some (1, 0), none⟩,
      ⟨[⟨30, true, 5, 1⟩, ⟨40, true, 6, 0⟩], some (1, 0), none⟩] : List XrefSection),
      s.entries.Pairwise objR) ∧
    (merge_xref_table [⟨[⟨10, true, 5, 0⟩], some (1, 0), none⟩,
      ⟨[⟨30, true, 5, 1⟩, ⟨40, true, 6, 0⟩], some (1, 0), none⟩]).1.Pairwise objR := by
  have hprem : ∀ s ∈ ([⟨[⟨10, true, 5, 0⟩], some (1, 0), none⟩,
      ⟨[⟨30, true, 5, 1⟩, ⟨40, true, 6, 0⟩], some (1, 0), none⟩] : List XrefSection),
      s.entries.Pairwise objR := by
    intro s hs
    rcases List.mem_cons.mp hs with rfl | hs'
    · exact List.pairwise_singleton _ _
    · rcases List.mem_cons.mp hs' with rfl | hs''
      · refine List.pairwise_cons.mpr ⟨?_, List.pairwise_singleton _ _⟩
        intro b hb
        rw [List.mem_singleton.mp hb]
        intro hc
        simp [objR] at hc
      · cases hs''
  exact ⟨hprem, (c1_first_occurrence_wins _ hprem).1⟩


/-- The backward scan of `cal_xref_table_offset` succeeds exactly when the
pattern occurs as a (not necessarily contiguous) subsequence of the scanned
list. -/
theorem back_scan_isSome_iff (rbuf : List Nat) :
    ∀ (pat : List Nat), pat ≠ [] → ∀ (idx : Nat),
      (back_scan rbuf pat idx).isSome = true ↔ pat.Sublist rbuf := by
  induction rbuf with
  | nil =>
    intro pat hne idx
    cases pat with
    | nil => exact absurd rfl hne
    | cons p ps =>
      simp [back_scan, List.sublist_nil]
  | cons b rest ih =>
    intro pat hne idx
    cases pat with
    | nil => exact absurd rfl hne
    | cons p ps =>
      by_cases hb : (b == p) = true
      · have hbp : b = p := by simpa using hb
        subst hbp
        cases ps with
        | nil => simp [back_scan]
        | cons q qs =>
          rw [show back_scan (b :: rest) (b :: q :: qs) idx
              = back_scan rest (q :: qs) (idx - 1) from by simp [back_scan]]
          rw [ih (q :: qs) (by simp) (idx - 1)]
          exact ⟨fun h => List.cons_sublist_cons.mpr h, fun h => List.cons_sublist_cons.mp h⟩
      · have hbp : b ≠ p := by simpa using hb
        rw [show back_scan (b :: rest) (p :: ps) idx
            = back_scan rest (p :: ps) (idx - 1) from by simp [back_scan, hbp]]
        rw [ih (p :: ps) (by simp) (idx - 1)]
        constructor
        · intro h
          exact h.cons b
        · intro h
          rcases List.sublist_cons_iff.mp h with h' | ⟨r, hr, hr'⟩
          · exact h'
          · cases hr
            exact absurd rfl hbp

/-- Bytes that never match the pattern's currently awaited character are
skipped by the backward scan, shifting the reported index. -/
theorem back_scan_skip (pat : List Nat) (p0 : Nat) (ps : List Nat)
    (hpat : pat = p0 :: ps) (noise : List Nat) (hnoise : ∀ b ∈ noise, b ≠ p0) :
    ∀ (rest : List Nat) (idx : Nat),
      back_scan (noise ++ rest) pat idx = back_scan rest pat (idx - noise.length) := by
  induction noise with
  | nil => intro rest idx; simp
  | cons b ns ih =>
    intro rest idx
    have hb : b ≠ p0 := hnoise b (by simp)
    subst hpat
    rw [List.cons_append]
    rw [show back_scan (b :: (ns ++ rest)) (p0 :: ps) idx
        = back_scan (ns ++ rest) (p0 :: ps) (idx - 1) from by simp [back_scan, hb]]
    rw [ih (fun x hx => hnoise x (by simp [hx])) rest (idx - 1)]
    congr 1
    simp
    omega

/-- Once the scan reaches the reversed keyword itself it matches it
contiguously and reports the index of its first character. -/
theorem back_scan_keyword (tail : List Nat) (idx : Nat) :
    back_scan (startxrefBytes.reverse ++ tail) startxrefBytes.reverse idx
      = some (idx - 8) := by
  show back_scan (102 :: 101 :: 114 :: 120 :: 116 :: 114 :: 97 :: 116 :: 115 :: tail)
      [102, 101, 114, 120, 116, 114, 97, 116, 115] idx = some (idx - 8)
  simp [back_scan]
  omega

/-- The decimal value of a string of ASCII digit bytes. -/
def byteDigitsVal (d : List Nat) : Nat :=
  d.foldl (fun a b => a * 10 + (b - 48)) 0

/-- The decimal fold never shrinks below its accumulator. -/
theorem foldl_digits_ge (d : List Nat) :
    ∀ a : Nat, a ≤ d.foldl (fun a b => a * 10 + (b - 48)) a := by
  induction d with
  | nil => intro a; exact Nat.le_refl a
  | cons b d' ih =>
    intro a
    calc a ≤ a * 10 + (b - 48) := by omega
      _ ≤ _ := ih _

/-- While the un-wrapped decimal value stays below `2^64`, the wrapping fold
of `literal_to_u64` agrees with the exact fold. -/
theorem literal_to_u64_digits_aux (d : List Nat) :
    ∀ a : Nat, (∀ b ∈ d, 48 ≤ b ∧ b ≤ 57) →
      d.foldl (fun a b => a * 10 + (b - 48)) a < 2 ^ 64 →
      d.foldl (fun value b => (value * 10 + (b + 256 - 48) % 256) % 2 ^ 64) a
        = d.foldl (fun a b => a * 10 + (b - 48)) a := by
  induction d with
  | nil => intro a _ _; rfl
  | cons b d' ih =>
    intro a hd hlt
    have hb := hd b (by simp)
    have hmod : (b + 256 - 48) % 256 = b - 48 := by omega
    have hstep_le : a * 10 + (b - 48) ≤ d'.foldl (fun a b => a * 10 + (b - 48)) (a * 10 + (b - 48)) :=
      foldl_digits_ge d' _
    have hstep_lt : a * 10 + (b - 48) < 2 ^ 64 := by
      calc a * 10 + (b - 48) ≤ _ := hstep_le
        _ < 2 ^ 64 := by
          simpa using hlt
    show d'.foldl _ ((a * 10 + (b + 256 - 48) % 256) % 2 ^ 64) = _
    rw [hmod, Nat.mod_eq_of_lt hstep_lt]
    exact ih _ (fun x hx => hd x (by simp [hx])) (by simpa using hlt)

/-- Bound on the decimal fold of a digit string. -/
theorem foldl_digits_lt (d : List Nat) :
    ∀ a : Nat, (∀ b ∈ d, 48 ≤ b ∧ b ≤ 57) →
      d.foldl (fun a b => a * 10 + (b - 48)) a < (a + 1) * 10 ^ d.length := by
  induction d with
  | nil => intro a _; simp
  | cons b d' ih =>
    intro a hd
    have hb := hd b (by simp)
    calc d'.foldl (fun a b => a * 10 + (b - 48)) (a * 10 + (b - 48))
        < (a * 10 + (b - 48) + 1) * 10 ^ d'.length :=
          ih _ (fun x hx => hd x (by simp [hx]))
      _ ≤ (a + 1) * 10 ^ (d'.length + 1) := by
          have : a * 10 + (b - 48) + 1 ≤ (a + 1) * 10 := by omega
          calc (a * 10 + (b - 48) + 1) * 10 ^ d'.length
              ≤ ((a + 1) * 10) * 10 ^ d'.length := Nat.mul_le_mul_right _ this
            _ = (a + 1) * 10 ^ (d'.length + 1) := by ring
      _ = (a + 1) * 10 ^ (b :: d').length := by simp

/-- On at most 19 ASCII digits, `literal_to_u64` computes the exact decimal
value (no `u8` or `u64` wrap occurs). -/
theorem literal_to_u64_digits (d : List Nat)
    (hd : ∀ b ∈ d, 48 ≤ b ∧ b ≤ 57) (hlen : d.length ≤ 19) :
    literal_to_u64 d = byteDigitsVal d := by
  unfold literal_to_u64 byteDigitsVal
  apply literal_to_u64_digits_aux d 0 hd
  calc d.foldl (fun a b => a * 10 + (b - 48)) 0 < (0 + 1) * 10 ^ d.length :=
      foldl_digits_lt d 0 hd
    _ ≤ 1 * 10 ^ 19 := by
      apply Nat.mul_le_mul_left
      exact Nat.pow_le_pow_right (by omega) hlen
    _ < 2 ^ 64 := by norm_num

/-- A window that ends with `startxref`, a line feed, a nonempty digit
string of at most 19 digits, and a final line feed makes
`cal_xref_table_offset` return that digit string's decimal value. -/
theorem c5_positive (p d : List Nat) (hne : d ≠ [])
    (hd : ∀ b ∈ d, 48 ≤ b ∧ b ≤ 57) (hlen : d.length ≤ 19) :
    cal_xref_table_offset (p ++ strBytes "startxref" ++ [10] ++ d ++ [10])
      = .ok (byteDigitsVal d) := by
  set buf := p ++ strBytes "startxref" ++ [10] ++ d ++ [10] with hbuf
  have hSX : strBytes "startxref" = startxrefBytes := rfl
  have hn : buf.length = p.length + d.length + 11 := by
    simp [hbuf, strBytes]
    omega
  -- the backward scan finds the keyword start at index p.length
  have hrev : buf.reverse
      = (([10] ++ d.reverse) ++ [10]) ++ (startxrefBytes.reverse ++ p.reverse) := by
    simp [hbuf, hSX]
  have hscan : back_scan buf.reverse startxrefBytes.reverse (buf.length - 1)
      = some p.length := by
    rw [hrev]
    rw [back_scan_skip startxrefBytes.reverse 102
      [101, 114, 120, 116, 114, 97, 116, 115] rfl (([10] ++ d.reverse) ++ [10])
      (by
        intro b hb
        rcases List.mem_append.mp hb with hb' | hb'
        · rcases List.mem_append.mp hb' with hb'' | hb''
          · rw [List.mem_singleton.mp hb'']; omega
          · have := hd b (by simpa using hb'')
            omega
        · rw [List.mem_singleton.mp hb']; omega)]
    rw [back_scan_keyword]
    have hlen2 : (([10] ++ d.reverse) ++ [10]).length = d.length + 2 := by simp
    rw [hlen2, hn]
    congr 1
    omega
  have hd9 : buf.drop (p.length + 9) = [10] ++ (d ++ [10]) := by
    have h1 : buf = (p ++ strBytes "startxref") ++ ([10] ++ (d ++ [10])) := by
      simp [hbuf]
    rw [h1, show p.length + 9 = (p ++ strBytes "startxref").length from by
      simp [strBytes], List.drop_left]
  have hd10 : buf.drop (p.length + 10) = d ++ [10] := by
    have h1 : buf = ((p ++ strBytes "startxref") ++ [10]) ++ (d ++ [10]) := by
      simp [hbuf]
    rw [h1, show p.length + 10 = ((p ++ strBytes "startxref") ++ [10]).length from by
      simp [strBytes], List.drop_left]
  have hcount : count_leading_line_endings
      (([10] ++ (d ++ [10])).take (buf.length - (p.length + 9))) = 1 := by
    have htake : ([10] ++ (d ++ [10])).take (buf.length - (p.length + 9))
        = [10] ++ (d ++ [10]) := by
      apply List.take_of_length_le
      simp
      omega
    rw [htake]
    cases d with
    | nil => exact absurd rfl hne
    | cons b0 d' =>
      have hb0 := hd b0 (by simp)
      show count_leading_line_endings (10 :: (b0 :: (d' ++ [10]))) = 1
      unfold count_leading_line_endings
      have h10 : line_ending 10 = true := rfl
      have hb0le : line_ending b0 = false := by
        unfold line_ending
        have h1 : (b0 == 13) = false := by
          simp only [beq_eq_false_iff_ne, ne_eq]; omega
        have h2 : (b0 == 10) = false := by
          simp only [beq_eq_false_iff_ne, ne_eq]; omega
        rw [h1, h2]
        rfl
      rw [h10]
      simp only [if_true]
      unfold count_leading_line_endings
      rw [hb0le]
      rfl
  have hfle : find_line_end buf (p.length + 10) = p.length + 10 + d.length := by
    unfold find_line_end
    rw [hd10, List.findIdx?_append]
    have hnone : d.findIdx? (fun b => line_ending b) = none := by
      rw [List.findIdx?_eq_none_iff]
      intro x hx
      have hb := hd x hx
      unfold line_ending
      have h1 : (x == 13) = false := by
        simp only [beq_eq_false_iff_ne, ne_eq]; omega
      have h2 : (x == 10) = false := by
        simp only [beq_eq_false_iff_ne, ne_eq]; omega
      rw [h1, h2]
      rfl
    rw [hnone]
    have hsing : List.findIdx? (fun b => line_ending b) [10] = some 0 := rfl
    rw [hsing]
    show p.length + 10 + (0 + d.length) = p.length + 10 + d.length
    omega
  -- assemble
  show (match back_scan buf.reverse startxrefBytes.reverse (buf.length - 1) with
    | none => Except.error PDFErr.invalidPDFDocument
    | some index =>
      let index := index + startxrefBytes.length
      let crlf_num := count_leading_line_endings ((buf.drop index).take (buf.length - index))
      let start := index + crlf_num
      let stop := find_line_end buf start
      if stop == 0 || start == stop then
        Except.error PDFErr.invalidPDFDocument
      else
        Except.ok (literal_to_u64 ((buf.drop start).take (stop - start))))
    = Except.ok (byteDigitsVal d)
  rw [hscan]
  show (let index := p.length + startxrefBytes.length
    let crlf_num := count_leading_line_endings ((buf.drop index).take (buf.length - index))
    let start := index + crlf_num
    let stop := find_line_end buf start
    if stop == 0 || start == stop then
      Except.error PDFErr.invalidPDFDocument
    else
      Except.ok (literal_to_u64 ((buf.drop start).take (stop - start))))
    = Except.ok (byteDigitsVal d)
  have hsxlen : startxrefBytes.length = 9 := rfl
  simp only [hsxlen, hd9, hcount, hfle]
  have hcond : ((p.length + 10 + d.length == 0) || (p.length + 9 + 1 == p.length + 10 + d.length)) = false := by
    have h1 : (p.length + 10 + d.length == 0) = false := by
      simp only [beq_eq_false_iff_ne, ne_eq]; omega
    have h2 : (p.length + 9 + 1 == p.length + 10 + d.length) = false := by
      simp only [beq_eq_false_iff_ne, ne_eq]
      have : d.length ≠ 0 := by
        intro h
        exact hne (List.eq_nil_of_length_eq_zero h)
      omega
    rw [h1, h2]
    rfl
  simp only [hcond, Bool.false_eq_true, if_false]
  have harith1 : p.length + 9 + 1 = p.length + 10 := by omega
  have harith2 : p.length + 10 + d.length - (p.length + 9 + 1) = d.length := by omega
  rw [harith1, harith2, hd10, List.take_left]
  rw [literal_to_u64_digits d hd hlen]

/-- C5 counterexample: a window whose bytes contain the letters of
`startxref` only as a scattered subsequence — never as the contiguous
keyword — is accepted by `cal_xref_table_offset`, which then parses the
bytes `"f42"` following the match position + 9 as the "offset" 5442; the
claim says any window without the contiguous keyword must fail with
`InvalidPDFDocument`. -/
theorem c5_counterexample :
    ¬ (startxrefBytes <:+: strBytes "startxreXf42\n") ∧
    cal_xref_table_offset (strBytes "startxreXf42\n") = .ok 5442 := by
  exact ⟨by decide, rfl⟩

/-- C5 amended: `cal_xref_table_offset` scans the last 1024 bytes backward
matching the characters of `startxref` greedily as a backward subsequence
(not necessarily contiguous).  If no such subsequence exists the open fails
with `InvalidPDFDocument`; when the window ends with the contiguous keyword
followed by a line feed, a digit line, and a line terminator, the decimal
digits on that line are parsed as the xref offset. -/
theorem c5_startxref_scan :
    (∀ buf : List Nat, ¬ startxrefBytes.Sublist buf →
      cal_xref_table_offset buf = .error .invalidPDFDocument) ∧
    (∀ p d : List Nat, d ≠ [] → (∀ b ∈ d, 48 ≤ b ∧ b ≤ 57) → d.length ≤ 19 →
      cal_xref_table_offset (p ++ strBytes "startxref" ++ [10] ++ d ++ [10])
        = .ok (byteDigitsVal d)) := by
  constructor
  · intro buf hnot
    have hnone : back_scan buf.reverse startxrefBytes.reverse (buf.length - 1)
        = none := by
      rcases h : back_scan buf.reverse startxrefBytes.reverse (buf.length - 1)
        with _ | i
      · rfl
      · exfalso
        have hsome : (back_scan buf.reverse startxrefBytes.reverse
            (buf.length - 1)).isSome = true := by rw [h]; rfl
        rw [back_scan_isSome_iff buf.reverse startxrefBytes.reverse (by decide)
          (buf.length - 1)] at hsome
        exact hnot (List.reverse_sublist.mp hsome)
    show (match back_scan buf.reverse startxrefBytes.reverse (buf.length - 1) with
      | none => Except.error PDFErr.invalidPDFDocument
      | some index =>
        let index := index + startxrefBytes.length
        let crlf_num := count_leading_line_endings
          ((buf.drop index).take (buf.length - index))
        let start := index + crlf_num
        let stop := find_line_end buf start
        if stop == 0 || start == stop then
          Except.error PDFErr.invalidPDFDocument
        else
          Except.ok (literal_to_u64 ((buf.drop start).take (stop - start))))
      = Except.error PDFErr.invalidPDFDocument
    rw [hnone]
  · exact c5_positive

/-- C5 witness: the negative half on a window with no `startxref`
subsequence, and the positive half at a concrete prefix and digit line. -/
theorem c5_startxref_scan_witness :
    cal_xref_table_offset (strBytes "nothing here") = .error .invalidPDFDocument ∧
    cal_xref_table_offset ([37] ++ strBytes "startxref" ++ [10] ++ strBytes "123" ++ [10])
      = .ok (byteDigitsVal (strBytes "123")) := by
  constructor
  · exact c5_startxref_scan.1 (strBytes "nothing here") (by decide)
  · exact c5_startxref_scan.2 [37] (strBytes "123") (by decide) (by decide) (by decide)

end PdfRs
